import Mathlib

/-!
Verification development for the activity-tracker service: shallow embeddings
of the rate limiter, retry harness, ingestion batch pipeline, hit tracker,
analytics aggregation and JWT verification paths, with theorems settling the
behavioural claims about them.
-/

namespace ActivityTracker

/-- Boolean test that the pattern is a leading block of the text. -/
def leadsWith : List Char → List Char → Bool
  | [], _ => true
  | _ :: _, [] => false
  | a :: as, b :: bs => a == b && leadsWith as bs

/-- Boolean test that the pattern occurs contiguously inside the text. -/
def hasChunk (pat : List Char) : List Char → Bool
  | [] => leadsWith pat []
  | b :: bs => leadsWith pat (b :: bs) || hasChunk pat bs

/-- Model of the JavaScript String.prototype.includes method. -/
def strIncludes (s pat : String) : Bool :=
  hasChunk pat.data s.data

/-- An error value as seen by the retry utilities: the message and name
fields of a JavaScript Error object. -/
structure JsError where
  message : String
  name : String
deriving DecidableEq

/-- Transcribed from isTransientDatabaseError in src/src/utils/retry.utils.ts:
the fixed list of transient substrings. -/
def transientErrorList : List String :=
  ["ECONNREFUSED", "ETIMEDOUT", "ENOTFOUND", "EHOSTUNREACH",
   "connection timeout", "connection lost", "deadlock", "lock timeout",
   "too many connections", "QueryFailedError"]

/-- Model of the JavaScript toLowerCase method, lowering each character. -/
def lowerStr (s : String) : String :=
  ⟨s.data.map Char.toLower⟩

/-- Transcribed from isTransientDatabaseError in src/src/utils/retry.utils.ts:
case-insensitive containment of any listed substring in message or name. -/
def isTransientDatabaseError (e : JsError) : Bool :=
  transientErrorList.any (fun t =>
    strIncludes (lowerStr e.message) (lowerStr t) ||
      strIncludes (lowerStr e.name) (lowerStr t))

/-- Transcribed from the retryableErrors check inside withRetry in
src/src/utils/retry.utils.ts: case-sensitive containment in message or name. -/
def matchesRetryable (retryable : List String) (e : JsError) : Bool :=
  retryable.any (fun r => strIncludes e.message r || strIncludes e.name r)

/-- The attempt loop of withRetry in src/src/utils/retry.utils.ts. The action
is modelled by the outcomes oracle giving the result of each numbered attempt.
The fuel argument bounds the recursion; it is chosen large enough in withRetry
that the zero-fuel branch is never reached, mirroring the unreachable final
throw of the source. -/
def retryGo (retryable : List String) (maxRetries : Nat)
    (outcomes : Nat → Except JsError α) : Nat → Nat → Except JsError α
  | 0, _ => .error ⟨"", ""⟩
  | fuel + 1, attempt =>
    match outcomes attempt with
    | .ok v => .ok v
    | .error e =>
      if maxRetries < attempt then .error e
      else if !retryable.isEmpty && !matchesRetryable retryable e then .error e
      else retryGo retryable maxRetries outcomes fuel (attempt + 1)

/-- Transcribed from withRetry in src/src/utils/retry.utils.ts: attempts are
numbered 1 to maxRetries + 1; an error at attempt maxRetries + 1 propagates,
and before that a non-retryable error propagates immediately. -/
def withRetry (retryable : List String) (maxRetries : Nat)
    (outcomes : Nat → Except JsError α) : Except JsError α :=
  retryGo retryable maxRetries outcomes (maxRetries + 1) 1

/-- Transcribed from withDatabaseRetry in src/src/utils/retry.utils.ts: the
retryableErrors list passed there (note it differs from transientErrorList). -/
def dbRetryableErrors : List String :=
  ["ECONNREFUSED", "ETIMEDOUT", "ENOTFOUND", "EHOSTUNREACH",
   "connection timeout", "connection lost", "deadlock", "lock timeout",
   "QueryFailedError"]

/-- Transcribed from withDatabaseRetry in src/src/utils/retry.utils.ts. -/
def withDatabaseRetry (outcomes : Nat → Except JsError α) : Except JsError α :=
  withRetry dbRetryableErrors 3 outcomes

/-- Error cases of the jsonwebtoken verify primitive, as distinguished by the
verifyJWT wrapper in the auth utilities. -/
inductive JwtVerifyErr where
  | expired
  | badSignature
  | badIssuer
  | badAudience
  | malformed
deriving DecidableEq

/-- Payload carried by the tokens of this service. -/
structure JWTPayload where
  clientId : String
  email : String
  name : String
deriving DecidableEq

/-- Result shape of verifyJWT. -/
structure JWTVerifyResult where
  payload : JWTPayload
  expired : Bool
deriving DecidableEq

/-- Transcribed from verifyJWT in the auth utilities: the jsonwebtoken verify
and decode primitives are abstracted as oracle arguments; on a
TokenExpiredError the token is decoded without verification and returned with
the expired flag, every other error is rethrown. -/
def verifyJWT (verify : Except JwtVerifyErr JWTPayload) (decode : Option JWTPayload) :
    Except JwtVerifyErr JWTVerifyResult :=
  match verify with
  | .ok p => .ok ⟨p, false⟩
  | .error .expired =>
    match decode with
    | some p => .ok ⟨p, true⟩
    | none => .error .expired
  | .error e => .error e

/-- The trim step of the rate-limit script: ZREMRANGEBYSCORE key 0 windowStart
removes every entry whose score lies between 0 and now minus the window in
milliseconds, inclusive. -/
def trimAt (window now : Int) (bucket : List Int) : List Int :=
  bucket.filter (fun s => decide (s < 0 ∨ now - window * 1000 < s))

/-- The pure cut predicate keeping timestamps inside the trailing window of
the check at time t; on nonnegative scores it agrees with the trim step. -/
def afterCut (window t : Int) : Int → Bool :=
  fun s => decide (t - window * 1000 < s)

/-- Transcribed from the Lua script in
src/src/services/rate-limiter.service.ts: trim, count, then either deny
without adding, or add the current timestamp and allow. The bucket is the
multiset of scores of the sorted-set entries; the result triple is
(allowed, current, resetTime) with allowed as a Boolean for the script's 1
or 0. -/
def luaRateLimit (window limit now : Int) (bucket : List Int) :
    (Bool × Int × Int) × List Int :=
  let trimmed := trimAt window now bucket
  let current : Int := (trimmed.length : Int)
  if limit ≤ current then
    let resetTime := match trimmed.min? with
      | some oldest => oldest + window * 1000
      | none => now
    ((false, current, resetTime), trimmed)
  else
    ((true, current + 1, now + window * 1000), now :: trimmed)

/-- A run of scripted rate-limit checks at the given sequence of times,
threading the bucket; returns the per-check pairs of time and allowed flag
together with the final bucket. -/
def rlRun (window limit : Int) : List Int → List Int → List (Int × Bool) × List Int
  | [], bucket => ([], bucket)
  | t :: ts, bucket =>
    let step := luaRateLimit window limit t bucket
    let rest := rlRun window limit ts step.2
    ((t, step.1.1) :: rest.1, rest.2)

/-- The times of the checks of a run that returned allowed. -/
def allowedTimes (rs : List (Int × Bool)) : List Int :=
  (rs.filter (fun p => p.2)).map (fun p => p.1)

/-- Admission history of a sliding-window limiter, newest first: each entry
was admitted while fewer than limit entries of its own trailing window were
already present. -/
inductive Admissible (W bound : Int) : List Int → Prop
  | nil : Admissible W bound []
  | cons (a : Int) (rest : List Int)
      (hcount : ((rest.filter (fun s => decide (a - W < s))).length : Int) < bound)
      (hrest : Admissible W bound rest) : Admissible W bound (a :: rest)

/-- Result record of the public checkRateLimit contract. -/
structure RLCheck where
  allowed : Bool
  remaining : Int
  resetAt : Int
  current : Int
deriving DecidableEq

/-- Transcribed from checkRateLimitInMemory in
src/src/services/rate-limiter.service.ts: the in-process fallback limiter;
note it reads the service-wide default maxRequests, not any per-client
override. The state is the client's timestamp vector. -/
def checkRateLimitInMemory (windowSize maxRequests now : Int)
    (timestamps : List Int) : RLCheck × List Int :=
  let windowStart := now - windowSize * 1000
  let ts := timestamps.filter (fun t => decide (windowStart < t))
  let currentCount : Int := (ts.length : Int)
  if maxRequests ≤ currentCount then
    let oldest := ts.head?.getD now
    ({ allowed := false, remaining := 0, resetAt := oldest + windowSize * 1000,
       current := currentCount }, ts)
  else
    ({ allowed := true, remaining := maxRequests - currentCount - 1,
       resetAt := now + windowSize * 1000,
       current := currentCount + 1 }, ts ++ [now])

/-- The limit actually used by checkRateLimit: the JavaScript or-expression
maxRequests or default, under which an override of zero also falls back. -/
def effectiveLimit (defaultLimit : Int) : Option Int → Int
  | none => defaultLimit
  | some m => if m = 0 then defaultLimit else m

/-- Transcribed from checkRateLimit in
src/src/services/rate-limiter.service.ts: the scripted evaluation is
abstracted as an oracle returning the script triple, or none when the
evaluation throws; on a throw the in-memory fallback decides with the
in-memory state. -/
def checkRateLimit (windowSize defaultLimit : Int) (override : Option Int)
    (now : Int) (evalOutcome : Option (Bool × Int × Int))
    (inMem : List Int) : RLCheck × List Int :=
  let limit := effectiveLimit defaultLimit override
  match evalOutcome with
  | some (allowedFlag, current, resetTime) =>
    if allowedFlag = false then
      ({ allowed := false, remaining := 0, resetAt := resetTime,
         current := current }, inMem)
    else
      ({ allowed := true, remaining := limit - current, resetAt := resetTime,
         current := current }, inMem)
  | none => checkRateLimitInMemory windowSize defaultLimit now inMem

/-- The fallback behaviour asserted by the claim, written from the spec's
words for comparison: the in-memory limiter applied with the effective
per-caller ceiling rather than the process-wide default. -/
def claimedFallback (windowSize defaultLimit : Int) (override : Option Int)
    (now : Int) (inMem : List Int) : RLCheck × List Int :=
  checkRateLimitInMemory windowSize (effectiveLimit defaultLimit override) now inMem

/-- Modelled from the spec: the Overflow Buffer add operation of the
in-memory log storage service, whose source file is not present under src.
A bounded FIFO of up to maxSize entries; add appends, and when the size
exceeds the bound the oldest entry is dropped. -/
def overflowAdd (maxSize : Nat) (buf : List α) (r : α) : List α :=
  let buf2 := buf ++ [r]
  if maxSize < buf2.length then buf2.tail else buf2

/-- State owned by the ingestion batch pipeline of ApiLogRepository: the
pending batch queue and the overflow storage contents. -/
structure BatchState (α : Type) where
  batchQueue : List α
  overflow : List α
deriving DecidableEq

/-- Transcribed from the catch branch of flushBatch in the retry-aware
revision of ApiLogRepository: given the flushed snapshot toWrite, the pending
queue and overflow contents at catch time, and the error, returns the new
pending queue, the new overflow contents, and whether toWrite was dropped. -/
def flushCatch (toWrite pendingNow overflow : List α) (e : JsError) :
    List α × List α × Bool :=
  if isTransientDatabaseError e then
    (pendingNow, toWrite.foldl (overflowAdd 10000) overflow, false)
  else if pendingNow.length < 1000 then
    (toWrite ++ pendingNow, overflow, false)
  else
    (pendingNow, overflow, true)

/-- Transcribed from flushBatch in the retry-aware revision of
ApiLogRepository, sequentially: the queue is snapshotted and reset, the
overflow storage is drained first when non-empty (restored on failure, which
is caught internally), then the bulk insert runs under the retry harness;
every error of the insert is caught and handled by flushCatch, so the
function yields a state and never an error. The two oracles give the
outcomes of the overflow drain and of the bulk insert. -/
def flushBatchModel (st : BatchState α) (ovOutcome : Except JsError Unit)
    (insOutcome : Except JsError Unit) : BatchState α :=
  if st.batchQueue.isEmpty then st
  else
    let toWrite := st.batchQueue
    let ov2 := if st.overflow.isEmpty then st.overflow
      else match ovOutcome with
        | .ok _ => []
        | .error _ => st.overflow
    match insOutcome with
    | .ok _ => { batchQueue := [], overflow := ov2 }
    | .error e =>
      let r := flushCatch toWrite [] ov2 e
      { batchQueue := r.1, overflow := r.2.1 }

/-- Transcribed from addToBatch of ApiLogRepository: push the record, and
flush synchronously when the batch size is reached; the flush swallows every
storage error, so the call always resolves with unit. -/
def addToBatch (batchSize : Nat) (st : BatchState α) (r : α)
    (ovOutcome insOutcome : Except JsError Unit) :
    Except JsError Unit × BatchState α :=
  let st2 : BatchState α := { st with batchQueue := st.batchQueue ++ [r] }
  if batchSize ≤ st2.batchQueue.length then
    (.ok (), flushBatchModel st2 ovOutcome insOutcome)
  else
    (.ok (), st2)

/-- Commands issued against the KV store by the hit tracker. -/
inductive RedisCmd where
  | incrBy (key : String) (amount : Int)
  | expire (key : String) (ttl : Int)
deriving DecidableEq

/-- The counter key the hit tracker targets for a cache key and hit flag. -/
def trackTargetKey (cacheKey : String) (isHit : Bool) : String :=
  if isHit then "cache:hits:" ++ cacheKey
  else "cache:hits:" ++ cacheKey ++ ":miss"

/-- Transcribed from trackAccess in
src/src/services/cache-hit-tracker.service.ts: one incrBy on the relevant
counter followed by an expire with the 300-second window, the whole body
wrapped in a try that swallows failures. The oracles say whether the incrBy
or the expire call throws; a throw stops the body, so a failing incrBy
prevents the expire call, and the result is unit in every case. -/
def trackAccess (cacheKey : String) (isHit : Bool)
    (incrFails expireFails : Bool) : List RedisCmd × Except JsError Unit :=
  let target := trackTargetKey cacheKey isHit
  if incrFails then ([RedisCmd.incrBy target 1], .ok ())
  else if expireFails then
    ([RedisCmd.incrBy target 1, RedisCmd.expire target 300], .ok ())
  else
    ([RedisCmd.incrBy target 1, RedisCmd.expire target 300], .ok ())

/-- Counter contents of the KV store, as an association list from key to
value, enough to observe creation of the hit-tracker counters. -/
def applyCmd (counters : List (String × Int)) : RedisCmd → List (String × Int)
  | RedisCmd.incrBy k n =>
    match counters.lookup k with
    | some v => (k, v + n) :: counters.eraseP (fun p => p.1 == k)
    | none => (k, n) :: counters
  | RedisCmd.expire _ _ => counters

/-- One row of the daily-usage aggregation, as shaped by DailyUsageResult of
ApiLogRepository; the date is its parsed time value and the numeric fields
are exact rationals standing for JavaScript numbers. -/
structure DailyUsageResult where
  date : Int
  requestCount : ℚ
  avgResponseTime : ℚ
  errorCount : ℚ
deriving DecidableEq

/-- The order of the daily-usage sort comparator of ClientService: date
descending, then request count descending. -/
def dailyLe (a b : DailyUsageResult) : Prop :=
  b.date < a.date ∨ (a.date = b.date ∧ b.requestCount ≤ a.requestCount)

instance : DecidableRel dailyLe := fun a b => by
  unfold dailyLe; infer_instance

instance : IsTotal DailyUsageResult dailyLe where
  total a b := by
    unfold dailyLe
    rcases lt_trichotomy a.date b.date with h | h | h
    · exact Or.inr (Or.inl h)
    · rcases le_total a.requestCount b.requestCount with hr | hr
      · exact Or.inr (Or.inr ⟨h.symm, hr⟩)
      · exact Or.inl (Or.inr ⟨h, hr⟩)
    · exact Or.inl (Or.inl h)

instance : IsTrans DailyUsageResult dailyLe where
  trans a b c hab hbc := by
    unfold dailyLe at *
    rcases hab with h1 | ⟨h1, h1r⟩ <;> rcases hbc with h2 | ⟨h2, h2r⟩
    · exact Or.inl (h2.trans h1)
    · exact Or.inl (h2 ▸ h1)
    · exact Or.inl (h1 ▸ h2)
    · exact Or.inr ⟨h1.trans h2, h2r.trans h1r⟩

/-- Transcribed from the per-caller revision of getDailyUsage in
src/src/api/client/clientService.ts, database path: each active caller's
per-day rows are collected and concatenated with no cross-caller merging,
then the whole list is sorted by date descending and request count
descending. The per-caller aggregation query is abstracted as the db map. -/
def getDailyUsagePerCaller (clients : List String)
    (db : String → List DailyUsageResult) : List DailyUsageResult :=
  List.insertionSort dailyLe (clients.flatMap db)

/-- Transcribed from the merge loop of the aggregating revision of
getDailyUsage in clientService.ts: the incoming same-date row is folded into
the existing row, with the request count updated before the weighted-average
denominator is computed. -/
def mergeDaily (existing incoming : DailyUsageResult) : DailyUsageResult :=
  let rc := existing.requestCount + incoming.requestCount
  let ec := existing.errorCount + incoming.errorCount
  let total := rc + incoming.requestCount
  { date := existing.date, requestCount := rc,
    avgResponseTime :=
      (existing.avgResponseTime * rc + incoming.avgResponseTime * incoming.requestCount) / total,
    errorCount := ec }

/-- The correct weighted average named by the spec: sum of count times
average over sum of counts. -/
def specMergedAvg (c1 a1 c2 a2 : ℚ) : ℚ := (c1 * a1 + c2 * a2) / (c1 + c2)

/-- One stored activity record, with the fields the top-callers aggregation
reads. -/
structure LogRow where
  clientId : String
  timestamp : Int
  responseTime : ℚ
  statusCode : Int
deriving DecidableEq

/-- One row of the top-callers aggregation, as shaped by TopClientResult. -/
structure TopClientResult where
  clientId : String
  requestCount : Nat
  avgResponseTime : ℚ
  errorCount : Nat
  lastAccess : Int
deriving DecidableEq

/-- The order of the top-callers query: request count descending. -/
def topLe (a b : TopClientResult) : Prop := b.requestCount ≤ a.requestCount

instance : DecidableRel topLe := fun a b => by
  unfold topLe; infer_instance

instance : IsTotal TopClientResult topLe where
  total a b := le_total b.requestCount a.requestCount

instance : IsTrans TopClientResult topLe where
  trans _ _ _ hab hbc := le_trans hbc hab

/-- The grouped row the SQL aggregation produces for one caller over the
given rows: count, average response time, error count with status at least
400, and the newest timestamp. -/
def aggClient (rows : List LogRow) (c : String) : TopClientResult :=
  let mine := rows.filter (fun r => r.clientId == c)
  { clientId := c,
    requestCount := mine.length,
    avgResponseTime :=
      if mine.length = 0 then 0
      else (mine.map (fun r => r.responseTime)).sum / (mine.length : ℚ),
    errorCount := (mine.filter (fun r => decide (400 ≤ r.statusCode))).length,
    lastAccess := ((mine.map (fun r => r.timestamp)).max?).getD 0 }

/-- The shared body of getTopClients: restrict to rows at or after the start
date, group by caller, order by request count descending, apply the limit. -/
def getTopClientsCore (rows : List LogRow) (lim : Nat) (startDate : Int) :
    List TopClientResult :=
  let inWindow := rows.filter (fun r => decide (startDate ≤ r.timestamp))
  let ids := (inWindow.map (fun r => r.clientId)).dedup
  (List.insertionSort topLe (ids.map (aggClient inWindow))).take lim

/-- Transcribed from the revision of ApiLogRepository.getTopClients that
subtracts hours from the current time. -/
def getTopClientsHours (rows : List LogRow) (lim : Nat) (hours now : Int) :
    List TopClientResult :=
  getTopClientsCore rows lim (now - hours * 3600000)

/-- Transcribed from the revision of ApiLogRepository.getTopClients in
src/src/repositories/api-log.repository.ts that subtracts days from the
current time, so that its second argument is interpreted as days. -/
def getTopClientsDays (rows : List LogRow) (lim : Nat) (days now : Int) :
    List TopClientResult :=
  getTopClientsCore rows lim (now - days * 86400000)

theorem foldl_overflowAdd_of_le (m : Nat) :
    ∀ (l buf : List α), buf.length + l.length ≤ m →
      l.foldl (overflowAdd m) buf = buf ++ l := by
  intro l
  induction l with
  | nil => intro buf _; simp
  | cons a l ih =>
    intro buf h
    have hlen : (buf ++ [a]).length = buf.length + 1 := by simp
    have hcount : buf.length + (l.length + 1) ≤ m := by
      simpa [Nat.add_comm, Nat.add_left_comm, Nat.add_assoc] using h
    have hcond : ¬ m < (buf ++ [a]).length := by rw [hlen]; omega
    have hb : overflowAdd m buf a = buf ++ [a] := by
      show (if m < (buf ++ [a]).length then (buf ++ [a]).tail else buf ++ [a]) = buf ++ [a]
      rw [if_neg hcond]
    rw [List.foldl_cons, hb, ih (buf ++ [a]) (by rw [hlen]; omega)]
    simp

/-- C10: when signature verification fails solely because the token is
expired and the token decodes, verifyJWT returns the unauthenticated decoded
payload with the expired flag instead of raising; every other verification
failure is raised to the caller, and a verified token is returned with the
expired flag clear. -/
theorem C10_verifyJWT_expired_path (verify : Except JwtVerifyErr JWTPayload)
    (decode : Option JWTPayload) (p : JWTPayload) (e : JwtVerifyErr) :
    (verify = .error .expired → decode = some p →
       verifyJWT verify decode = .ok ⟨p, true⟩) ∧
    (verify = .error e → e ≠ .expired → verifyJWT verify decode = .error e) ∧
    (verify = .ok p → verifyJWT verify decode = .ok ⟨p, false⟩) := by
  refine ⟨fun h1 h2 => ?_, fun h1 h2 => ?_, fun h1 => ?_⟩
  · subst h1; subst h2; rfl
  · subst h1; cases e <;> simp_all [verifyJWT]
  · subst h1; rfl

theorem C10_verifyJWT_witness :
    verifyJWT (.error .expired) (some ⟨"CL-1", "a@b.c", "Acme"⟩) =
      .ok ⟨⟨"CL-1", "a@b.c", "Acme"⟩, true⟩ ∧
    verifyJWT (.error .badSignature) none = .error .badSignature :=
  ⟨(C10_verifyJWT_expired_path (.error .expired) (some ⟨"CL-1", "a@b.c", "Acme"⟩)
      ⟨"CL-1", "a@b.c", "Acme"⟩ .badSignature).1 rfl rfl,
   (C10_verifyJWT_expired_path (.error .badSignature) none
      ⟨"CL-1", "a@b.c", "Acme"⟩ .badSignature).2.1 rfl (by decide)⟩

/-- C8 counterexample: after a first successful access has created the hit
counter, the trace of a further access still contains an expire command
(trackAccess issues it unconditionally), so the expire is not restricted to
the counter's first creation. -/
theorem C8_counterexample :
    (((trackAccess "usage:daily:7" true false false).1.foldl applyCmd []).lookup
        "cache:hits:usage:daily:7").isSome = true ∧
    RedisCmd.expire "cache:hits:usage:daily:7" 300 ∈
      (trackAccess "usage:daily:7" true false false).1 := by
  decide

/-- C8 amended: each access issues exactly one atomic increment of one on
the relevant counter and, whenever the increment succeeds, an expire with
the 300-second window on every access rather than only on first creation;
tracking failures are swallowed and the call always resolves with unit. -/
theorem C8_track_access (k : String) (isHit incrFails expireFails : Bool) :
    (trackAccess k isHit incrFails expireFails).2 = .ok () ∧
    (trackAccess k isHit true expireFails).1 =
      [RedisCmd.incrBy (trackTargetKey k isHit) 1] ∧
    (trackAccess k isHit false expireFails).1 =
      [RedisCmd.incrBy (trackTargetKey k isHit) 1,
       RedisCmd.expire (trackTargetKey k isHit) 300] := by
  unfold trackAccess
  cases incrFails <;> cases expireFails <;> simp

/-- C2 counterexample: with default ceiling one and per-caller override
five, a failed script evaluation falls back to the in-memory limiter, which
denies the request, while the limiter applied with the overridden ceiling
would allow it. -/
theorem C2_counterexample :
    (checkRateLimit 3600 1 (some 5) 7200000 none [7199999]).1.allowed = false ∧
    (claimedFallback 3600 1 (some 5) 7200000 [7199999]).1.allowed = true := by
  decide

/-- C2 amended: when the script evaluation fails, the fallback limiter
applies the same window but always the process-wide default ceiling: the
decision is independent of the per-caller override and equals the in-memory
check at the default limit. -/
theorem C2_fallback_default_limit (windowSize defaultLimit : Int)
    (override : Option Int) (now : Int) (inMem : List Int) :
    (∀ o1 o2 : Option Int,
       checkRateLimit windowSize defaultLimit o1 now none inMem =
         checkRateLimit windowSize defaultLimit o2 now none inMem) ∧
    checkRateLimit windowSize defaultLimit override now none inMem =
      checkRateLimitInMemory windowSize defaultLimit now inMem :=
  ⟨fun _ _ => rfl, rfl⟩

/-- C5 counterexample: an error whose message is the too-many-connections
marker is transient under isTransientDatabaseError, yet the database retry
harness propagates it immediately without retrying, because its own
retryable list omits that marker and is matched case-sensitively. -/
theorem C5_counterexample :
    isTransientDatabaseError ⟨"too many connections", "Error"⟩ = true ∧
    withDatabaseRetry (fun n =>
        if n = 1 then .error ⟨"too many connections", "Error"⟩ else .ok ()) =
      .error ⟨"too many connections", "Error"⟩ := by
  exact ⟨by decide, rfl⟩

/-- C5 amended: under the database retry harness an attempt's error is
retried exactly when its message or name case-sensitively contains one of
the harness's fixed substrings, a list that omits the too-many-connections
marker; a non-matching error propagates immediately after the first attempt,
and when the three retries are exhausted the error of the final attempt
propagates. -/
theorem C5_database_retry (outcomes : Nat → Except JsError α) (e : JsError) (v : α) :
    (outcomes 1 = .error e → matchesRetryable dbRetryableErrors e = false →
       withDatabaseRetry outcomes = .error e) ∧
    (outcomes 1 = .error e → matchesRetryable dbRetryableErrors e = true →
       outcomes 2 = .ok v → withDatabaseRetry outcomes = .ok v) ∧
    ((∀ n, 1 ≤ n → n ≤ 3 → ∃ en, outcomes n = .error en ∧
        matchesRetryable dbRetryableErrors en = true) →
      outcomes 4 = .error e → withDatabaseRetry outcomes = .error e) := by
  have hne : dbRetryableErrors.isEmpty = false := rfl
  refine ⟨fun h1 hm => ?_, fun h1 hm h2 => ?_, fun hall h4 => ?_⟩
  · simp [withDatabaseRetry, withRetry, retryGo, h1, hm, hne]
  · simp [withDatabaseRetry, withRetry, retryGo, h1, hm, h2]
  · obtain ⟨e1, he1, hm1⟩ := hall 1 (by omega) (by omega)
    obtain ⟨e2, he2, hm2⟩ := hall 2 (by omega) (by omega)
    obtain ⟨e3, he3, hm3⟩ := hall 3 (by omega) (by omega)
    simp [withDatabaseRetry, withRetry, retryGo, he1, hm1, he2, hm2, he3, hm3, h4]

theorem C5_database_retry_witness :
    withDatabaseRetry (fun _ => (.error ⟨"boom", "TypeError"⟩ : Except JsError Unit)) =
      .error ⟨"boom", "TypeError"⟩ ∧
    withDatabaseRetry (fun n =>
        if n = 1 then .error ⟨"deadlock detected", "Error"⟩
        else (.ok () : Except JsError Unit)) = .ok () ∧
    withDatabaseRetry (fun n =>
        if n = 4 then .error ⟨"final failure", "Error"⟩
        else (.error ⟨"deadlock detected", "Error"⟩ : Except JsError Unit)) =
      .error ⟨"final failure", "Error"⟩ :=
  ⟨(C5_database_retry _ ⟨"boom", "TypeError"⟩ ()).1 rfl (by decide),
   (C5_database_retry _ ⟨"deadlock detected", "Error"⟩ ()).2.1 rfl (by decide) rfl,
   (C5_database_retry _ ⟨"final failure", "Error"⟩ ()).2.2
     (fun n h1 h3 => ⟨⟨"deadlock detected", "Error"⟩,
       by have hne : n ≠ 4 := by omega
          simp [hne], by decide⟩) rfl⟩

/-- C9: the merged average of the aggregating revision of getDailyUsage is
arithmetically incorrect for rows with positive counts, because the incoming
count is double-counted in the denominator: at counts one and one with
averages zero and two it yields two thirds where the correct weighted
average is one. -/
theorem C9_merge_double_counts :
    (mergeDaily ⟨0, 1, 0, 0⟩ ⟨0, 1, 2, 0⟩).avgResponseTime = 2 / 3 ∧
    specMergedAvg 1 0 1 2 = 1 ∧ ((2 : ℚ) / 3 ≠ 1 ∧ (0 : ℚ) < 1) := by
  refine ⟨?_, ?_, by norm_num⟩ <;> norm_num [mergeDaily, specMergedAvg]

/-- C3: when a flush's bulk insert fails after the retry harness, a
transient error moves the whole flushed snapshot into the overflow buffer
and re-queues nothing; a non-transient error prepends the snapshot back to
the pending queue exactly when the queue is under the thousand-record cap
and otherwise drops it; in no case is a record both re-queued and buffered. -/
theorem C3_flush_failure_branches (toWrite pendingNow overflow : List α) (e : JsError) :
    (isTransientDatabaseError e = true →
       flushCatch toWrite pendingNow overflow e =
         (pendingNow, toWrite.foldl (overflowAdd 10000) overflow, false) ∧
       (overflow.length + toWrite.length ≤ 10000 →
         (flushCatch toWrite pendingNow overflow e).2.1 = overflow ++ toWrite)) ∧
    (isTransientDatabaseError e = false → pendingNow.length < 1000 →
       flushCatch toWrite pendingNow overflow e = (toWrite ++ pendingNow, overflow, false)) ∧
    (isTransientDatabaseError e = false → 1000 ≤ pendingNow.length →
       flushCatch toWrite pendingNow overflow e = (pendingNow, overflow, true)) ∧
    ((flushCatch toWrite pendingNow overflow e).1 = pendingNow ∨
       (flushCatch toWrite pendingNow overflow e).2.1 = overflow) := by
  refine ⟨fun ht => ⟨?_, fun hcap => ?_⟩, fun ht hlen => ?_, fun ht hlen => ?_, ?_⟩
  · simp [flushCatch, ht]
  · simp [flushCatch, ht, foldl_overflowAdd_of_le 10000 toWrite overflow hcap]
  · simp [flushCatch, ht, hlen]
  · have hnot : ¬ pendingNow.length < 1000 := by omega
    simp [flushCatch, ht, hnot]
  · unfold flushCatch
    split
    · exact Or.inl rfl
    · split
      · exact Or.inr rfl
      · exact Or.inl rfl

theorem C3_flush_failure_witness :
    flushCatch [1, 2] [] [0] ⟨"deadlock found", "Error"⟩ = ([], [0, 1, 2], false) ∧
    flushCatch [1, 2] [9] [0] ⟨"boom", "TypeError"⟩ = ([1, 2, 9], [0], false) := by
  constructor
  · have h := (C3_flush_failure_branches [1, 2] [] [0] ⟨"deadlock found", "Error"⟩).1
      (by decide)
    rw [h.1]; decide
  · have h := (C3_flush_failure_branches [1, 2] [9] [0] ⟨"boom", "TypeError"⟩).2.1
      (by decide) (by decide)
    rw [h]; rfl

/-- C4: the value that addToBatch resolves with is success in every case and
does not depend on the outcome of the overflow drain or of the durable-store
insert, including when the push reaches the batch size and triggers a
synchronous flush whose errors are all caught inside flushBatch. -/
theorem C4_submit_outcome (batchSize : Nat) (st : BatchState α) (r : α)
    (o1 o2 o1b o2b : Except JsError Unit) :
    (addToBatch batchSize st r o1 o2).1 = .ok () ∧
    (addToBatch batchSize st r o1 o2).1 = (addToBatch batchSize st r o1b o2b).1 := by
  by_cases hcond : batchSize ≤ st.batchQueue.length + 1
  · simp [addToBatch, hcond]
  · simp [addToBatch, hcond]

/-- C6: the database path of the per-caller revision of getDailyUsage
returns a permutation of the concatenation of every active caller's per-day
rows, so each per-caller per-day row is preserved with no cross-caller
summation, and the result is sorted by date descending and then request
count descending. -/
theorem C6_daily_usage_concat_sorted (clients : List String)
    (db : String → List DailyUsageResult) :
    (getDailyUsagePerCaller clients db).Perm (clients.flatMap db) ∧
    (getDailyUsagePerCaller clients db).Sorted dailyLe :=
  ⟨List.perm_insertionSort dailyLe _, List.sorted_insertionSort dailyLe _⟩

/-- C7 counterexample: the days revision of the top-callers aggregation,
called with second argument twenty-four, aggregates a record whose timestamp
lies strictly before now minus twenty-four hours, so its window is not the
claimed interval from now minus hours to now; the hours revision excludes
the same record. -/
theorem C7_days_counterexample :
    (getTopClientsDays [LogRow.mk "X" 0 1 200] 10 24 90000000).length = 1 ∧
    (0 : Int) < 90000000 - 24 * 3600000 ∧
    getTopClientsHours [LogRow.mk "X" 0 1 200] 10 24 90000000 = [] := by
  decide

/-- C7 amended: the hours revision of the top-callers aggregation works over
the window from now minus hours to now: assuming no stored record postdates
now, every produced group equals the aggregate, for its caller, of exactly
the rows of that window, the result is ordered by request count descending,
and the limit caps its length. The days revision instead interprets the
second argument as days. -/
theorem C7_top_clients_hours (rows : List LogRow) (lim : Nat) (hours now : Int)
    (hbound : ∀ r ∈ rows, r.timestamp ≤ now) :
    (getTopClientsHours rows lim hours now).length ≤ lim ∧
    (getTopClientsHours rows lim hours now).Sorted topLe ∧
    (∀ g ∈ getTopClientsHours rows lim hours now,
       g = aggClient (rows.filter (fun r =>
         decide (now - hours * 3600000 ≤ r.timestamp ∧ r.timestamp ≤ now))) g.clientId) := by
  have hfe : rows.filter (fun r => decide (now - hours * 3600000 ≤ r.timestamp)) =
      rows.filter (fun r =>
        decide (now - hours * 3600000 ≤ r.timestamp ∧ r.timestamp ≤ now)) := by
    refine List.filter_congr ?_
    intro r hr
    have hb := hbound r hr
    simp [hb]
  refine ⟨?_, ?_, ?_⟩
  · simp [getTopClientsHours, getTopClientsCore, List.length_take]
  · exact List.Pairwise.sublist (List.take_sublist _ _)
      (List.sorted_insertionSort topLe _)
  · intro g hg
    simp only [getTopClientsHours, getTopClientsCore] at hg
    have hg2 := List.mem_of_mem_take hg
    rw [List.mem_insertionSort] at hg2
    obtain ⟨c, _, rfl⟩ := List.mem_map.1 hg2
    have hid : (aggClient (rows.filter (fun r =>
        decide (now - hours * 3600000 ≤ r.timestamp))) c).clientId = c := rfl
    rw [hid, ← hfe]

theorem C7_top_clients_hours_witness :
    (∀ r ∈ [LogRow.mk "X" 50 1 200], r.timestamp ≤ 100) ∧
    (getTopClientsHours [LogRow.mk "X" 50 1 200] 2 1 100).length ≤ 2 :=
  ⟨by decide, (C7_top_clients_hours [LogRow.mk "X" 50 1 200] 2 1 100 (by decide)).1⟩

theorem trim_filter_eq (window tp t : Int) (A : List Int)
    (hA : ∀ a ∈ A, 0 ≤ a) (hle : tp ≤ t) :
    trimAt window t (A.filter (afterCut window tp)) = A.filter (afterCut window t) := by
  unfold trimAt
  rw [List.filter_filter]
  refine List.filter_congr ?_
  intro a ha
  have hnn := hA a ha
  by_cases hcut : t - window * 1000 < a
  · have hcut2 : tp - window * 1000 < a := by omega
    simp [afterCut, hcut, hcut2, hnn]
  · simp [afterCut, hcut, hnn]

theorem rlRun_invariant (window limit : Int) (hW : 0 < window) :
    ∀ ts : List Int, ts.Pairwise (fun a b => a ≤ b) → (∀ t ∈ ts, 0 ≤ t) →
    ∀ (A : List Int) (tp : Int), (∀ a ∈ A, 0 ≤ a) → (∀ t ∈ ts, tp ≤ t) →
      Admissible (window * 1000) limit A →
      Admissible (window * 1000) limit
        ((allowedTimes (rlRun window limit ts (A.filter (afterCut window tp))).1).reverse ++ A) ∧
      ∀ a ∈ allowedTimes (rlRun window limit ts (A.filter (afterCut window tp))).1, 0 ≤ a := by
  intro ts
  induction ts with
  | nil =>
    intro _ _ A tp _ _ hAdm
    constructor
    · simpa [rlRun, allowedTimes] using hAdm
    · simp [rlRun, allowedTimes]
  | cons t ts ih =>
    intro hsort hnn A tp hA htp hAdm
    have htle : ∀ u ∈ ts, t ≤ u := (List.pairwise_cons.1 hsort).1
    have hsort2 := (List.pairwise_cons.1 hsort).2
    have hnn2 : ∀ u ∈ ts, 0 ≤ u := fun u hu => hnn u (List.mem_cons_of_mem _ hu)
    have htnn : 0 ≤ t := hnn t (List.mem_cons_self _ _)
    have htpt : tp ≤ t := htp t (List.mem_cons_self _ _)
    have htrim := trim_filter_eq window tp t A hA htpt
    have hWpos : 0 < window * 1000 := by omega
    by_cases hcase :
        limit ≤ ((trimAt window t (A.filter (afterCut window tp))).length : Int)
    · have hcase2 : limit ≤ ((A.filter (afterCut window t)).length : Int) := by
        rw [← htrim]; exact hcase
      have h11 : (luaRateLimit window limit t (A.filter (afterCut window tp))).1.1 = false := by
        simp [luaRateLimit, hcase]
      have h2 : (luaRateLimit window limit t (A.filter (afterCut window tp))).2 =
          A.filter (afterCut window t) := by
        simp [luaRateLimit, htrim, hcase2]
      have hrunEq : rlRun window limit (t :: ts) (A.filter (afterCut window tp)) =
          ((t, false) :: (rlRun window limit ts (A.filter (afterCut window t))).1,
           (rlRun window limit ts (A.filter (afterCut window t))).2) := by
        simp [rlRun, h11, h2]
      have hres := ih hsort2 hnn2 A t hA htle hAdm
      rw [hrunEq]
      constructor
      · simpa [allowedTimes] using hres.1
      · intro a ha
        refine hres.2 a ?_
        simpa [allowedTimes] using ha
    · have hlt : ((A.filter (afterCut window t)).length : Int) < limit := by
        rw [← htrim]; omega
      have h11 : (luaRateLimit window limit t (A.filter (afterCut window tp))).1.1 = true := by
        simp [luaRateLimit, hcase]
      have hconsFilter : (t :: A).filter (afterCut window t) =
          t :: A.filter (afterCut window t) := by
        have hself : afterCut window t t = true := by
          simp [afterCut]; omega
        simp [List.filter_cons, hself]
      have hcase2 : ¬ limit ≤ ((A.filter (afterCut window t)).length : Int) := by omega
      have h2 : (luaRateLimit window limit t (A.filter (afterCut window tp))).2 =
          (t :: A).filter (afterCut window t) := by
        simp [luaRateLimit, htrim, hcase2, hconsFilter]
      have hAdm2 : Admissible (window * 1000) limit (t :: A) :=
        Admissible.cons t A hlt hAdm
      have hA2 : ∀ a ∈ t :: A, 0 ≤ a := by
        intro a ha
        rcases List.mem_cons.1 ha with h | h
        · omega
        · exact hA a h
      have hrunEq : rlRun window limit (t :: ts) (A.filter (afterCut window tp)) =
          ((t, true) :: (rlRun window limit ts ((t :: A).filter (afterCut window t))).1,
           (rlRun window limit ts ((t :: A).filter (afterCut window t))).2) := by
        simp [rlRun, h11, h2]
      have hres := ih hsort2 hnn2 (t :: A) t hA2 htle hAdm2
      rw [hrunEq]
      constructor
      · have hlist :
            (allowedTimes ((t, true) ::
                (rlRun window limit ts ((t :: A).filter (afterCut window t))).1)).reverse ++ A =
            (allowedTimes
                (rlRun window limit ts ((t :: A).filter (afterCut window t))).1).reverse ++
              (t :: A) := by
          simp [allowedTimes]
        rw [hlist]
        exact hres.1
      · intro a ha
        have ha2 : a = t ∨
            a ∈ allowedTimes
              (rlRun window limit ts ((t :: A).filter (afterCut window t))).1 := by
          simpa [allowedTimes] using ha
        rcases ha2 with rfl | h
        · exact htnn
        · exact hres.2 a h

theorem admissible_window_count (W lim : Int) (hlim : 0 ≤ lim) :
    ∀ A : List Int, Admissible W lim A → ∀ u : Int,
      ((A.filter (fun s => decide (u < s ∧ s ≤ u + W))).length : Int) ≤ lim := by
  intro A h
  induction h with
  | nil => intro u; simpa using hlim
  | cons a rest hcount _ ih =>
    intro u
    by_cases hin : u < a ∧ a ≤ u + W
    · have hsub : List.Sublist (rest.filter (fun s => decide (u < s ∧ s ≤ u + W)))
          (rest.filter (fun s => decide (a - W < s))) := by
        refine List.monotone_filter_right rest ?_
        intro s hs
        simp only [decide_eq_true_eq] at hs ⊢
        omega
      have hlen := hsub.length_le
      have hstep : List.filter (fun s => decide (u < s ∧ s ≤ u + W)) (a :: rest) =
          a :: List.filter (fun s => decide (u < s ∧ s ≤ u + W)) rest := by
        simp [List.filter_cons, hin]
      rw [hstep]
      simp only [List.length_cons]
      omega
    · have hstep : List.filter (fun s => decide (u < s ∧ s ≤ u + W)) (a :: rest) =
          List.filter (fun s => decide (u < s ∧ s ≤ u + W)) rest := by
        simp [List.filter_cons, hin]
      rw [hstep]
      exact ih u

theorem run_count_eq (rs : List (Int × Bool)) (wp : Int → Bool) :
    (((allowedTimes rs).filter wp).length : Int) =
      ((rs.filter (fun p => p.2 && wp p.1)).length : Int) := by
  induction rs with
  | nil => simp [allowedTimes]
  | cons p rs ih =>
    by_cases hp : p.2
    · by_cases hwp : wp p.1
      · simp [allowedTimes, List.filter_cons, hp, hwp] at ih ⊢
        omega
      · simpa [allowedTimes, List.filter_cons, hp, hwp] using ih
    · simpa [allowedTimes, List.filter_cons, hp] using ih

/-- C1: over any run of scripted checks from a fresh bucket at nondecreasing
nonnegative times, the number of checks that return allowed with timestamp in
any half-open window of the configured length is at most the ceiling; and per
check, after trimming entries at least a window old, a check at or above the
ceiling denies and adds no entry while a check below it allows and adds
exactly one entry. -/
theorem C1_sliding_window_bound (window limit : Int) (hW : 0 < window)
    (hlim : 0 ≤ limit) (ts : List Int) (hsorted : ts.Pairwise (fun a b => a ≤ b))
    (hnn : ∀ t ∈ ts, 0 ≤ t) (u now : Int) (bucket : List Int) :
    (((rlRun window limit ts []).1.filter
        (fun p => p.2 && decide (u < p.1 ∧ p.1 ≤ u + window * 1000))).length : Int) ≤ limit ∧
    (limit ≤ ((trimAt window now bucket).length : Int) →
       (luaRateLimit window limit now bucket).1.1 = false ∧
       (luaRateLimit window limit now bucket).2 = trimAt window now bucket) ∧
    (((trimAt window now bucket).length : Int) < limit →
       (luaRateLimit window limit now bucket).1.1 = true ∧
       (luaRateLimit window limit now bucket).2 = now :: trimAt window now bucket) := by
  refine ⟨?_, fun hge => ?_, fun hlt => ?_⟩
  · have hstart : ∀ t ∈ ts, (-1 : Int) ≤ t := fun t ht => by
      have := hnn t ht; omega
    have hinv := rlRun_invariant window limit hW ts hsorted hnn [] (-1)
      (by intro a ha; simp at ha) hstart Admissible.nil
    have hAdm : Admissible (window * 1000) limit
        (allowedTimes (rlRun window limit ts []).1).reverse := by
      have := hinv.1
      simpa using this
    have hbound := admissible_window_count (window * 1000) limit hlim
      (allowedTimes (rlRun window limit ts []).1).reverse hAdm u
    rw [List.filter_reverse, List.length_reverse] at hbound
    have hcnt := run_count_eq (rlRun window limit ts []).1
      (fun s => decide (u < s ∧ s ≤ u + window * 1000))
    omega
  · constructor
    · simp [luaRateLimit, hge]
    · simp [luaRateLimit, hge]
  · have hcase : ¬ limit ≤ ((trimAt window now bucket).length : Int) := by omega
    constructor
    · simp [luaRateLimit, hcase]
    · simp [luaRateLimit, hcase]

theorem C1_sliding_window_bound_witness :
    ((0 : Int) < 1 ∧ (0 : Int) ≤ 1) ∧
    (((rlRun 1 1 [0, 10, 2000] []).1.filter
        (fun p => p.2 && decide ((-1 : Int) < p.1 ∧ p.1 ≤ -1 + 1 * 1000))).length : Int) ≤ 1 :=
  ⟨⟨by decide, by decide⟩,
   (C1_sliding_window_bound 1 1 (by decide) (by decide) [0, 10, 2000]
      (by decide) (by decide) (-1) 5 [3]).1⟩

end ActivityTracker
